import Mathlib

/-!
# Verification of the BinanceMonitor data pipeline

Shallow embedding, in Lean 4, of the pure computational core of the
BinanceMonitor repository, together with theorems checking the repository's
natural-language specification against the code.

Embedded source locations:
* `pages/ratemonitor.py` — `BinanceFundingRateTracker.get_top_n`,
  `get_biggest_changes`, `run_task` (funding-rate ranking and snapshot state).
* `pages/CryptoRateTradeMonitor.py` — the premium computation and
  `update_data` (per-symbol time-series maintenance).
* `pages/deepseekmoney.py` — `get_klines_parallel` (parallel kline collection).
* `pages/binanceperpsanalysis.py` — `RateLimiter.acquire`,
  `BinanceFuturesAnalyzer.get_position_data` / `analyze_positions`.

Python floats are modelled as rationals (`ℚ`); Python dicts as association
lists in insertion order; a raised exception as `Except.error`.
-/

/-- Symbols are exchange ticker strings. -/
abbrev Symb := String

/-- A funding-rate mapping (Python dict in insertion order): symbol → rate. -/
abbrev Rates := List (Symb × ℚ)

/-- Python `d[s]`-style lookup on an association list: the value at the first
occurrence of the key `s`, if any (for a dict, keys are unique). -/
def lookupRate (s : Symb) : Rates → Option ℚ
  | [] => none
  | p :: rest => if p.1 = s then some p.2 else lookupRate s rest

/-- Comparison used by `sorted(..., key=lambda x: x[1])`: ascending by value. -/
def valLe (a b : Symb × ℚ) : Prop := a.2 ≤ b.2

/-- Comparison used by `sorted(..., key=lambda x: x[1], reverse=True)`:
descending by value. -/
def valGe (a b : Symb × ℚ) : Prop := b.2 ≤ a.2

instance : DecidableRel valLe := fun a b => inferInstanceAs (Decidable (a.2 ≤ b.2))

instance : DecidableRel valGe := fun a b => inferInstanceAs (Decidable (b.2 ≤ a.2))

instance : IsTotal (Symb × ℚ) valLe := ⟨fun a b => le_total a.2 b.2⟩

instance : IsTrans (Symb × ℚ) valLe := ⟨fun _ _ _ h h' => le_trans h h'⟩

instance : IsTotal (Symb × ℚ) valGe := ⟨fun a b => le_total b.2 a.2⟩

instance : IsTrans (Symb × ℚ) valGe := ⟨fun _ _ _ h h' => le_trans h' h⟩

/-- `BinanceFundingRateTracker.get_top_n` (`pages/ratemonitor.py`):
`sorted(rates.items(), key=lambda x: x[1], reverse=reverse)[:n]`.
Python's stable sort is modelled by stable insertion sort. -/
def get_top_n (rates : Rates) (n : ℕ) (reverse : Bool) : Rates :=
  let sorted_rates :=
    if reverse then List.insertionSort valGe rates else List.insertionSort valLe rates
  sorted_rates.take n

/-- The `changes` dict built inside `get_biggest_changes`
(`pages/ratemonitor.py`): iterate `current` in order; for each symbol also
present in `previous`, take `change = rate - previous[symbol]` and keep it only
when its sign matches the requested direction. -/
def changes_dict (current previous : Rates) (increasing : Bool) : Rates :=
  current.filterMap fun sr =>
    (lookupRate sr.1 previous).bind fun p =>
      let change := sr.2 - p
      if (increasing = true ∧ 0 < change) ∨ (increasing = false ∧ change < 0) then
        some (sr.1, change)
      else
        none

/-- `BinanceFundingRateTracker.get_biggest_changes` (`pages/ratemonitor.py`):
`sorted(changes.items(), key=lambda x: x[1], reverse=increasing)[:n]`. -/
def get_biggest_changes (current previous : Rates) (n : ℕ) (increasing : Bool) : Rates :=
  let sorted_changes :=
    if increasing then List.insertionSort valGe (changes_dict current previous increasing)
    else List.insertionSort valLe (changes_dict current previous increasing)
  sorted_changes.take n

/-- C1 scenario data: current funding rates `{A: 0.02, B: -0.01, C: 0.005}`. -/
def mockCurrent : Rates := [("A", 1/50), ("B", -1/100), ("C", 1/200)]

/-- C1 scenario data: previous funding rates `{A: 0.01, B: -0.01, C: 0.01}`. -/
def mockPrevious : Rates := [("A", 1/100), ("B", -1/100), ("C", 1/100)]

/-- C1: on the mocked rates (current `{A: 0.02, B: -0.01, C: 0.005}`, previous
`{A: 0.01, B: -0.01, C: 0.01}`) with `n = 2`, the ranking pipeline yields
`highest_rates = [A(0.02), C(0.005)]`, `lowest_rates = [B(-0.01), C(0.005)]`,
`biggest_increases = [A(+0.01)]` and `biggest_decreases = [C(-0.005)]`. -/
theorem funding_scenario_top_and_changes :
    get_top_n mockCurrent 2 true = [("A", 1/50), ("C", 1/200)] ∧
    get_top_n mockCurrent 2 false = [("B", -1/100), ("C", 1/200)] ∧
    get_biggest_changes mockCurrent mockPrevious 2 true = [("A", 1/100)] ∧
    get_biggest_changes mockCurrent mockPrevious 2 false = [("C", -1/200)] := by
  refine ⟨?_, ?_, ?_, ?_⟩ <;>
    norm_num [mockCurrent, mockPrevious, get_top_n, get_biggest_changes, changes_dict,
      lookupRate, List.insertionSort, List.orderedInsert, List.filterMap_cons, valGe, valLe,
      show ("A" = "B") = False from by simp, show ("A" = "C") = False from by simp,
      show ("B" = "A") = False from by simp, show ("B" = "C") = False from by simp,
      show ("C" = "A") = False from by simp, show ("C" = "B") = False from by simp]

/-- If `lookupRate` finds a value, the corresponding pair is in the list. -/
theorem lookupRate_eq_some_mem {s : Symb} {r : ℚ} :
    ∀ {l : Rates}, lookupRate s l = some r → (s, r) ∈ l := by
  intro l
  induction l with
  | nil => intro h; cases h
  | cons p rest ih =>
    intro h
    rw [lookupRate] at h
    by_cases hp : p.1 = s
    · rw [if_pos hp] at h
      have hr : p.2 = r := Option.some.inj h
      have hsp : (s, r) = p := by rw [← hp, ← hr]
      rw [hsp]
      exact List.mem_cons_self p rest
    · rw [if_neg hp] at h
      exact List.mem_cons_of_mem _ (ih h)

/-- On a list with unique keys (a Python dict), membership determines the
result of `lookupRate`. -/
theorem lookupRate_of_mem_nodup {s : Symb} {r : ℚ} :
    ∀ {l : Rates}, (l.map Prod.fst).Nodup → (s, r) ∈ l → lookupRate s l = some r := by
  intro l
  induction l with
  | nil => intro _ h; cases h
  | cons p rest ih =>
    intro hnd hmem
    rw [List.map_cons, List.nodup_cons] at hnd
    rcases List.mem_cons.mp hmem with heq | htail
    · rw [← heq, lookupRate, if_pos rfl]
    · have hne : p.1 ≠ s := by
        intro hps
        exact hnd.1 (hps ▸ List.mem_map_of_mem Prod.fst htail)
      rw [lookupRate, if_neg hne]
      exact ih hnd.2 htail

/-- Characterization of the `changes` dict of `get_biggest_changes`: exactly
the symbols present in both mappings, carrying `current - previous`, filtered
to the sign of the requested direction. -/
theorem mem_changes_dict_iff {current previous : Rates}
    (hnd : (current.map Prod.fst).Nodup) (inc : Bool) (s : Symb) (c : ℚ) :
    (s, c) ∈ changes_dict current previous inc ↔
      ∃ r p, lookupRate s current = some r ∧ lookupRate s previous = some p ∧
        c = r - p ∧ ((inc = true ∧ 0 < c) ∨ (inc = false ∧ c < 0)) := by
  simp only [changes_dict, List.mem_filterMap, Option.bind_eq_some,
    Option.ite_none_right_eq_some, Option.some.injEq, Prod.mk.injEq]
  constructor
  · rintro ⟨⟨s₀, r⟩, hmem, p, hlook, hcond, hs, hc⟩
    subst hs
    exact ⟨r, p, lookupRate_of_mem_nodup hnd hmem, hlook, hc.symm, hc ▸ hcond⟩
  · rintro ⟨r, p, hcur, hprev, hc, hcond⟩
    exact ⟨(s, r), lookupRate_eq_some_mem hcur, p, hprev, hc ▸ hcond, rfl, hc.symm⟩

/-- C2: every entry returned by `get_biggest_changes` belongs to a symbol
present in both mappings, its change is `current[symbol] - previous[symbol]`,
it is never zero, and its sign matches the requested direction; and the
candidate set (the `changes` dict) holds exactly the symbols present in both
mappings whose change has the matching sign. -/
theorem get_biggest_changes_sound (current previous : Rates)
    (hnd : (current.map Prod.fst).Nodup) (n : ℕ) (inc : Bool) :
    (∀ s c, (s, c) ∈ changes_dict current previous inc ↔
        ∃ r p, lookupRate s current = some r ∧ lookupRate s previous = some p ∧
          c = r - p ∧ ((inc = true ∧ 0 < c) ∨ (inc = false ∧ c < 0))) ∧
    (∀ s c, (s, c) ∈ get_biggest_changes current previous n inc →
        ∃ r p, lookupRate s current = some r ∧ lookupRate s previous = some p ∧
          c = r - p ∧ c ≠ 0 ∧ (inc = true → 0 < c) ∧ (inc = false → c < 0)) := by
  refine ⟨fun s c => mem_changes_dict_iff hnd inc s c, fun s c hmem => ?_⟩
  have hmem' : (s, c) ∈ changes_dict current previous inc := by
    rw [get_biggest_changes] at hmem
    have h₁ := List.mem_of_mem_take hmem
    by_cases hi : inc = true
    · rw [if_pos hi] at h₁
      exact (List.mem_insertionSort valGe).mp h₁
    · rw [if_neg hi] at h₁
      exact (List.mem_insertionSort valLe).mp h₁
  obtain ⟨r, p, hcur, hprev, hc, hcond⟩ := (mem_changes_dict_iff hnd inc s c).mp hmem'
  rcases hcond with ⟨hit, hpos⟩ | ⟨hif, hneg⟩
  · exact ⟨r, p, hcur, hprev, hc, ne_of_gt hpos, fun _ => hpos,
      fun hf => absurd (hit ▸ hf) (by simp)⟩
  · exact ⟨r, p, hcur, hprev, hc, ne_of_lt hneg, fun ht => absurd (hif ▸ ht) (by simp),
      fun _ => hneg⟩

/-- C2 witness: the soundness theorem applied to a concrete pair of mappings
(`current = {A: 2, B: 1}`, `previous = {A: 1, B: 1}`, `n = 5`, increasing). -/
theorem get_biggest_changes_sound_witness :
    ((([("A", (2 : ℚ)), ("B", 1)] : Rates).map Prod.fst).Nodup) ∧
    (∀ s c, (s, c) ∈ get_biggest_changes [("A", 2), ("B", 1)] [("A", 1), ("B", 1)] 5 true →
        ∃ r p, lookupRate s [("A", 2), ("B", 1)] = some r ∧
          lookupRate s [("A", 1), ("B", 1)] = some p ∧
          c = r - p ∧ c ≠ 0 ∧ (true = true → 0 < c) ∧ (true = false → c < 0)) :=
  ⟨by simp, (get_biggest_changes_sound [("A", 2), ("B", 1)] [("A", 1), ("B", 1)]
    (by simp) 5 true).2⟩

/-- C3 counterexample: with tied values `{A: 1, B: 1}` the top-2 descending
list is `[A(1), B(1)]`, which is not *strictly* sorted by value. -/
theorem get_top_n_not_strictly_sorted :
    ¬ List.Pairwise (fun a b : Symb × ℚ => b.2 < a.2) (get_top_n [("A", 1), ("B", 1)] 2 true) := by
  intro h
  have heval : get_top_n [("A", 1), ("B", 1)] 2 true = [("A", 1), ("B", 1)] := by
    norm_num [get_top_n, List.insertionSort, List.orderedInsert, valGe]
  rw [heval] at h
  rw [List.pairwise_cons] at h
  exact absurd (h.1 ("B", 1) (List.mem_singleton_self _)) (lt_irrefl (1 : ℚ))

/-- C3 (amended): `get_top_n` returns at most `n` entries, sorted
(non-strictly) by value — non-increasing for `reverse = true`, non-decreasing
for `reverse = false` — and when `n` covers the whole mapping the output is a
permutation of it (every entry exactly once). -/
theorem get_top_n_spec (rates : Rates) (n : ℕ) (reverse : Bool) :
    (get_top_n rates n reverse).length ≤ n ∧
    (reverse = true → List.Pairwise valGe (get_top_n rates n reverse)) ∧
    (reverse = false → List.Pairwise valLe (get_top_n rates n reverse)) ∧
    (rates.length ≤ n → List.Perm (get_top_n rates n reverse) rates) := by
  refine ⟨List.length_take_le n _, fun hrev => ?_, fun hrev => ?_, fun hlen => ?_⟩
  · rw [get_top_n, hrev]
    exact List.Pairwise.sublist (List.take_sublist n _)
      (List.sorted_insertionSort valGe rates)
  · rw [get_top_n, hrev]
    exact List.Pairwise.sublist (List.take_sublist n _)
      (List.sorted_insertionSort valLe rates)
  · rw [get_top_n]
    by_cases hrev : reverse = true
    · rw [hrev]
      simp only [if_pos]
      rw [List.take_of_length_le (by rw [List.length_insertionSort]; exact hlen)]
      exact List.perm_insertionSort valGe rates
    · rw [if_neg hrev]
      rw [List.take_of_length_le (by rw [List.length_insertionSort]; exact hlen)]
      exact List.perm_insertionSort valLe rates

/-- C3 witness: the amended theorem applied to `{A: 1, B: 2}`, `n = 2`,
descending, with the `n ≥ size` hypothesis discharged. -/
theorem get_top_n_spec_witness :
    (([("A", (1 : ℚ)), ("B", 2)] : Rates).length ≤ 2) ∧
    (get_top_n [("A", 1), ("B", 2)] 2 true).length ≤ 2 ∧
    List.Pairwise valGe (get_top_n [("A", 1), ("B", 2)] 2 true) ∧
    List.Perm (get_top_n [("A", 1), ("B", 2)] 2 true) [("A", 1), ("B", 2)] :=
  ⟨by norm_num, (get_top_n_spec [("A", 1), ("B", 2)] 2 true).1,
    (get_top_n_spec [("A", 1), ("B", 2)] 2 true).2.1 rfl,
    (get_top_n_spec [("A", 1), ("B", 2)] 2 true).2.2.2 (by norm_num)⟩

/-- The premium computation `(futures_price - spot_price) / spot_price * 100`
(`pages/CryptoRateTradeMonitor.py`, lines 261 and 353). Python float division
raises `ZeroDivisionError` on a zero divisor — it never yields an IEEE
infinity or NaN — and the raise is modelled as `Except.error`. -/
def premium (spot futures : ℚ) : Except String ℚ :=
  if spot = 0 then Except.error "ZeroDivisionError: float division by zero"
  else Except.ok ((futures - spot) / spot * 100)

/-- C4: with `spot = 0` the premium computation signals an error to the caller
(a raised `ZeroDivisionError`, never a silent ±infinity/NaN value), and for
every `spot > 0` it succeeds with exactly `(futures - spot) / spot * 100`. -/
theorem premium_zero_signals_error (spot futures : ℚ) :
    (spot = 0 →
      premium spot futures = Except.error "ZeroDivisionError: float division by zero") ∧
    (0 < spot → premium spot futures = Except.ok ((futures - spot) / spot * 100)) := by
  constructor
  · intro h
    rw [premium, if_pos h]
  · intro h
    rw [premium, if_neg (ne_of_gt h)]

/-- C4 witness: the premium theorem applied at `spot = 0, futures = 7` (error
branch) and at `spot = 2, futures = 3` (success branch). -/
theorem premium_zero_signals_error_witness :
    ((0 : ℚ) = 0) ∧
    premium 0 7 = Except.error "ZeroDivisionError: float division by zero" ∧
    ((0 : ℚ) < 2) ∧
    premium 2 3 = Except.ok (((3 : ℚ) - 2) / 2 * 100) :=
  ⟨rfl, (premium_zero_signals_error 0 7).1 rfl, by norm_num,
    (premium_zero_signals_error 2 3).2 (by norm_num)⟩

/-- The statistics snapshot persisted by `run_task` to
`funding_rates_stats.json` (`pages/ratemonitor.py`). -/
structure Snapshot where
  timestamp : ℕ
  highest_rates : Rates
  lowest_rates : Rates
  biggest_increases : Rates
  biggest_decreases : Rates
  previous_rates : Rates

/-- The observable state of a `BinanceFundingRateTracker`: the in-memory
`previous_rates` / `current_rates` fields and the persisted data file. -/
structure TrackerState where
  previous_rates : Rates
  current_rates : Rates
  data_file : Option Snapshot

/-- `BinanceFundingRateTracker.run_task` (`pages/ratemonitor.py`), with the
fetched funding rates passed in as `fetched` (the result of
`get_funding_rates`, empty on fetch failure) and the wall-clock timestamp as
`ts`. An empty fetch returns early; otherwise the snapshot is computed from
the old `previous_rates` baseline, written to the data file, and
`previous_rates` is updated to the just-fetched rates. -/
def run_task (fetched : Rates) (ts : ℕ) (st : TrackerState) : TrackerState :=
  let st₁ : TrackerState := { st with current_rates := fetched }
  if fetched.isEmpty then st₁
  else
    let highest_rates := get_top_n fetched 5 true
    let lowest_rates := get_top_n fetched 5 false
    let increasing_rates :=
      if st₁.previous_rates.isEmpty then []
      else get_biggest_changes fetched st₁.previous_rates 5 true
    let decreasing_rates :=
      if st₁.previous_rates.isEmpty then []
      else get_biggest_changes fetched st₁.previous_rates 5 false
    let stats : Snapshot :=
      { timestamp := ts, highest_rates := highest_rates, lowest_rates := lowest_rates,
        biggest_increases := increasing_rates, biggest_decreases := decreasing_rates,
        previous_rates := fetched }
    { st₁ with data_file := some stats, previous_rates := fetched }

/-- C9: when the fetch returns no rates, `run_task` leaves both the in-memory
`previous_rates` and the persisted snapshot unchanged; when it succeeds,
`run_task` persists the just-fetched mapping as `previous_rates` (in memory
and in the snapshot) and computes that cycle's change lists against the prior
baseline. -/
theorem run_task_previous_rates_spec (fetched : Rates) (ts : ℕ) (st : TrackerState) :
    (fetched = [] →
      (run_task fetched ts st).previous_rates = st.previous_rates ∧
      (run_task fetched ts st).data_file = st.data_file) ∧
    (fetched ≠ [] →
      (run_task fetched ts st).previous_rates = fetched ∧
      ∃ snap, (run_task fetched ts st).data_file = some snap ∧
        snap.previous_rates = fetched ∧
        snap.biggest_increases = (if st.previous_rates.isEmpty then []
          else get_biggest_changes fetched st.previous_rates 5 true) ∧
        snap.biggest_decreases = (if st.previous_rates.isEmpty then []
          else get_biggest_changes fetched st.previous_rates 5 false)) := by
  constructor
  · intro h
    subst h
    simp [run_task]
  · intro h
    have hne : fetched.isEmpty = false := by
      rw [List.isEmpty_eq_false_iff_exists_mem]
      rcases fetched with _ | ⟨p, rest⟩
      · exact absurd rfl h
      · exact ⟨p, List.mem_cons_self p rest⟩
    refine ⟨?_, ?_⟩
    · rw [run_task]
      simp [hne]
    · rw [run_task]
      simp only [hne, Bool.false_eq_true, if_false]
      exact ⟨_, rfl, rfl, rfl, rfl⟩

/-- C9 witness: `run_task` applied to the concrete fetch `{A: 1}` from the
empty initial state. -/
theorem run_task_previous_rates_spec_witness :
    (([("A", (1 : ℚ))] : Rates) ≠ []) ∧
    ((run_task [("A", 1)] 0 ⟨[], [], none⟩).previous_rates = [("A", 1)] ∧
      ∃ snap, (run_task [("A", 1)] 0 ⟨[], [], none⟩).data_file = some snap ∧
        snap.previous_rates = [("A", 1)] ∧
        snap.biggest_increases = (if ([] : Rates).isEmpty then []
          else get_biggest_changes [("A", 1)] [] 5 true) ∧
        snap.biggest_decreases = (if ([] : Rates).isEmpty then []
          else get_biggest_changes [("A", 1)] [] 5 false)) :=
  ⟨by simp, (run_task_previous_rates_spec [("A", 1)] 0 ⟨[], [], none⟩).2 (by simp)⟩

/-- The per-symbol record `symbol_data` maintained by
`pages/CryptoRateTradeMonitor.py`: six parallel time-series lists plus the
most recent raw funding rate. Timestamps are seconds. -/
structure SymbolData where
  timestamps : List ℚ
  spot_prices : List ℚ
  futures_prices : List ℚ
  premiums : List ℚ
  funding_rates : List ℚ
  open_interest : List ℚ
  last_funding_rate : Option ℚ

/-- All six parallel lists of a `SymbolData` have the same length. -/
def SymbolData.wellFormed (d : SymbolData) : Prop :=
  d.spot_prices.length = d.timestamps.length ∧
  d.futures_prices.length = d.timestamps.length ∧
  d.premiums.length = d.timestamps.length ∧
  d.funding_rates.length = d.timestamps.length ∧
  d.open_interest.length = d.timestamps.length

/-- Slice all six lists of a `SymbolData` from the same start index
(the `[start_idx:]` slicing block of `update_data`). -/
def dropAll (k : ℕ) (d : SymbolData) : SymbolData :=
  { timestamps := d.timestamps.drop k
    spot_prices := d.spot_prices.drop k
    futures_prices := d.futures_prices.drop k
    premiums := d.premiums.drop k
    funding_rates := d.funding_rates.drop k
    open_interest := d.open_interest.drop k
    last_funding_rate := d.last_funding_rate }

/-- The cleanup block of `update_data` (`pages/CryptoRateTradeMonitor.py`,
lines 383-398): with more than one retained point, if the earliest timestamp
is older than `now - 4h` (14400 s), find the first index at or after the
cutoff and slice every list from there; if no index qualifies, do nothing. -/
def trimOld (now : ℚ) (d : SymbolData) : SymbolData :=
  if 1 < d.timestamps.length then
    let cutoff := now - 14400
    match d.timestamps with
    | [] => d
    | t0 :: _ =>
      if t0 < cutoff then
        match d.timestamps.findIdx? (fun ts => decide (cutoff ≤ ts)) with
        | some start_idx => dropAll start_idx d
        | none => d
      else d
  else d

/-- The price/premium append block of `update_data` (lines 356-359). -/
def appendPrices (now sp fp prem : ℚ) (d : SymbolData) : SymbolData :=
  { d with timestamps := d.timestamps ++ [now]
           spot_prices := d.spot_prices ++ [sp]
           futures_prices := d.futures_prices ++ [fp]
           premiums := d.premiums ++ [prem] }

/-- The funding-rate append block of `update_data` (lines 362-369): an
available rate is stored multiplied by 100 (and remembered raw in
`last_funding_rate`); a missing rate repeats the last stored value, or 0 if
the series is empty. -/
def appendFunding (funding_rate : Option ℚ) (d : SymbolData) : SymbolData :=
  match funding_rate with
  | some fr =>
    { d with funding_rates := d.funding_rates ++ [fr * 100]
             last_funding_rate := some fr }
  | none =>
    match d.funding_rates.getLast? with
    | some last => { d with funding_rates := d.funding_rates ++ [last] }
    | none => { d with funding_rates := d.funding_rates ++ [0] }

/-- The open-interest append block of `update_data` (lines 372-378). -/
def appendOI (open_interest : Option ℚ) (d : SymbolData) : SymbolData :=
  match open_interest with
  | some o => { d with open_interest := d.open_interest ++ [o] }
  | none =>
    match d.open_interest.getLast? with
    | some last => { d with open_interest := d.open_interest ++ [last] }
    | none => { d with open_interest := d.open_interest ++ [0] }

/-- `update_data` (`pages/CryptoRateTradeMonitor.py`, lines 340-403), acting
on the `symbol_data` record. The four fetches are passed in as options (absent
on fetch failure). When either price is missing nothing is appended. The
premium is computed before any mutation, so a zero spot price raises
(`Except.error`) with the record untouched. -/
def update_data (now : ℚ) (spot_price futures_price funding_rate open_interest : Option ℚ)
    (d : SymbolData) : Except String SymbolData :=
  match spot_price, futures_price with
  | some sp, some fp =>
    match premium sp fp with
    | Except.error e => Except.error e
    | Except.ok prem =>
      Except.ok (trimOld now (appendOI open_interest (appendFunding funding_rate
        (appendPrices now sp fp prem d))))
  | _, _ => Except.ok d

/-- A fresh `symbol_data` record (the session-state initializer). -/
def emptySymbolData : SymbolData := ⟨[], [], [], [], [], [], none⟩

/-- `trimOld` always slices all six lists at one common start index, which is
0 (no trim) or a valid index of the timestamp list. -/
theorem trimOld_eq_dropAll (now : ℚ) (d : SymbolData) :
    ∃ k, trimOld now d = dropAll k d ∧ (k = 0 ∨ k < d.timestamps.length) := by
  rw [trimOld]
  by_cases h1 : 1 < d.timestamps.length
  · rw [if_pos h1]
    rcases hts : d.timestamps with _ | ⟨t0, rest⟩
    · exact ⟨0, rfl, Or.inl rfl⟩
    · dsimp only
      by_cases h2 : t0 < now - 14400
      · rw [if_pos h2]
        rcases hidx : List.findIdx? (fun ts => decide (now - 14400 ≤ ts)) (t0 :: rest)
          with _ | i
        · exact ⟨0, rfl, Or.inl rfl⟩
        · have hlt : i < (t0 :: rest).length :=
            (List.findIdx?_eq_some_iff_findIdx_eq.mp hidx).1
          exact ⟨i, rfl, Or.inr (hts ▸ hlt)⟩
      · rw [if_neg h2]
        exact ⟨0, rfl, Or.inl rfl⟩
  · rw [if_neg h1]
    exact ⟨0, rfl, Or.inl rfl⟩

/-- `dropAll` keeps the six lists equal in length. -/
theorem dropAll_wellFormed (k : ℕ) (d : SymbolData) (hw : d.wellFormed) :
    (dropAll k d).wellFormed := by
  obtain ⟨h1, h2, h3, h4, h5⟩ := hw
  simp [dropAll, SymbolData.wellFormed, List.length_drop, h1, h2, h3, h4, h5]

/-- The three append blocks together add exactly one element to each of the
six lists. -/
theorem append_lengths (now sp fp prem : ℚ) (f oi : Option ℚ) (d : SymbolData) :
    (appendOI oi (appendFunding f (appendPrices now sp fp prem d))).timestamps.length
      = d.timestamps.length + 1 ∧
    (appendOI oi (appendFunding f (appendPrices now sp fp prem d))).spot_prices.length
      = d.spot_prices.length + 1 ∧
    (appendOI oi (appendFunding f (appendPrices now sp fp prem d))).futures_prices.length
      = d.futures_prices.length + 1 ∧
    (appendOI oi (appendFunding f (appendPrices now sp fp prem d))).premiums.length
      = d.premiums.length + 1 ∧
    (appendOI oi (appendFunding f (appendPrices now sp fp prem d))).funding_rates.length
      = d.funding_rates.length + 1 ∧
    (appendOI oi (appendFunding f (appendPrices now sp fp prem d))).open_interest.length
      = d.open_interest.length + 1 := by
  rcases f with _ | fr <;> rcases oi with _ | o <;>
    rcases hfl : d.funding_rates.getLast? with _ | lastf <;>
    rcases hol : d.open_interest.getLast? with _ | lasto <;>
      simp [appendPrices, appendFunding, appendOI, hfl, hol]

/-- The append blocks leave `funding_rates` as the old series with one new
element, `r * 100` when the fetched rate `r` is available, and set
`last_funding_rate` to the raw fetched rate. -/
theorem append_funding_fields (now sp fp prem r : ℚ) (oi : Option ℚ) (d : SymbolData) :
    (appendOI oi (appendFunding (some r) (appendPrices now sp fp prem d))).funding_rates
      = d.funding_rates ++ [r * 100] ∧
    (appendOI oi (appendFunding (some r) (appendPrices now sp fp prem d))).last_funding_rate
      = some r := by
  rcases oi with _ | o <;>
    rcases hol : d.open_interest.getLast? with _ | lasto <;>
      simp [appendPrices, appendFunding, appendOI, hol]

/-- Dropping strictly fewer elements than the length preserves the last
element of a list. -/
theorem getLast?_drop_of_lt {α : Type} :
    ∀ (l : List α) (k : ℕ), k < l.length → (l.drop k).getLast? = l.getLast? := by
  intro l
  induction l with
  | nil => intro k hk; cases hk
  | cons a t ih =>
    intro k hk
    cases k with
    | zero => rfl
    | succ k' =>
      have hk' : k' < t.length := Nat.lt_of_succ_lt_succ hk
      rw [List.drop_succ_cons, ih k' hk']
      rcases t with _ | ⟨b, t'⟩
      · cases hk'
      · rw [List.getLast?_cons_cons]

/-- C10 (amended): `update_data` keeps the six time-series lists equal in
length in every case; when both prices are available and the spot price is
nonzero it appends exactly one element to each of the six lists (substituting
the previous value or 0 for an unavailable funding rate / open interest) and
then slices all six at one common start index; when a price is unavailable it
appends to none of them. A zero spot price raises before any mutation. -/
theorem update_data_preserves_lengths (now : ℚ)
    (spot_price futures_price funding_rate open_interest : Option ℚ)
    (d : SymbolData) (hw : d.wellFormed) :
    (∀ d', update_data now spot_price futures_price funding_rate open_interest d
        = Except.ok d' → d'.wellFormed) ∧
    (∀ sp fp, spot_price = some sp → futures_price = some fp → sp ≠ 0 →
      ∃ k, update_data now spot_price futures_price funding_rate open_interest d
          = Except.ok (dropAll k (appendOI open_interest (appendFunding funding_rate
              (appendPrices now sp fp ((fp - sp) / sp * 100) d)))) ∧
        (appendOI open_interest (appendFunding funding_rate
            (appendPrices now sp fp ((fp - sp) / sp * 100) d))).timestamps.length
          = d.timestamps.length + 1 ∧
        (appendOI open_interest (appendFunding funding_rate
            (appendPrices now sp fp ((fp - sp) / sp * 100) d))).funding_rates.length
          = d.funding_rates.length + 1 ∧
        (appendOI open_interest (appendFunding funding_rate
            (appendPrices now sp fp ((fp - sp) / sp * 100) d))).open_interest.length
          = d.open_interest.length + 1) ∧
    (spot_price = none ∨ futures_price = none →
      update_data now spot_price futures_price funding_rate open_interest d
        = Except.ok d) := by
  have happly : ∀ sp fp, sp ≠ 0 →
      update_data now (some sp) (some fp) funding_rate open_interest d
        = Except.ok (trimOld now (appendOI open_interest (appendFunding funding_rate
            (appendPrices now sp fp ((fp - sp) / sp * 100) d)))) := by
    intro sp fp hsp
    rw [update_data, premium, if_neg hsp]
  refine ⟨?_, ?_, ?_⟩
  · intro d' hok
    rcases spot_price with _ | sp
    · exact (Except.ok.inj hok) ▸ hw
    · rcases futures_price with _ | fp
      · exact (Except.ok.inj hok) ▸ hw
      · by_cases hsp : sp = 0
        · rw [update_data, premium, if_pos hsp] at hok
          cases hok
        · rw [happly sp fp hsp] at hok
          cases hok
          obtain ⟨k, hk, _⟩ := trimOld_eq_dropAll now (appendOI open_interest
            (appendFunding funding_rate (appendPrices now sp fp ((fp - sp) / sp * 100) d)))
          rw [hk]
          apply dropAll_wellFormed
          obtain ⟨l1, l2, l3, l4, l5, l6⟩ := append_lengths now sp fp
            ((fp - sp) / sp * 100) funding_rate open_interest d
          obtain ⟨w1, w2, w3, w4, w5⟩ := hw
          exact ⟨by rw [l2, l1, w1], by rw [l3, l1, w2], by rw [l4, l1, w3],
            by rw [l5, l1, w4], by rw [l6, l1, w5]⟩
  · intro sp fp hsome hfut hsp
    subst hsome
    subst hfut
    obtain ⟨k, hk, _⟩ := trimOld_eq_dropAll now (appendOI open_interest
      (appendFunding funding_rate (appendPrices now sp fp ((fp - sp) / sp * 100) d)))
    obtain ⟨l1, l2, l3, l4, l5, l6⟩ := append_lengths now sp fp
      ((fp - sp) / sp * 100) funding_rate open_interest d
    exact ⟨k, by rw [happly sp fp hsp, hk], l1, l5, l6⟩
  · intro hmiss
    rcases spot_price with _ | sp
    · rfl
    · rcases futures_price with _ | fp
      · rfl
      · rcases hmiss with h | h <;> cases h

/-- C10 counterexample: with both prices available but a zero spot price,
`update_data` raises `ZeroDivisionError` from the premium division and appends
nothing, so the "appends exactly one element to each list" part of the claim
fails for this input. -/
theorem update_data_zero_spot_counterexample :
    update_data 0 (some 0) (some 1) none none emptySymbolData
      = Except.error "ZeroDivisionError: float division by zero" := by
  rw [update_data, premium, if_pos rfl]

/-- C10 witness: the amended theorem applied at a concrete input with the
spot price missing (the fetch-failure branch leaves the record untouched). -/
theorem update_data_preserves_lengths_witness :
    emptySymbolData.wellFormed ∧
    update_data 0 none (some 1) none none emptySymbolData = Except.ok emptySymbolData :=
  ⟨by simp [SymbolData.wellFormed, emptySymbolData],
   (update_data_preserves_lengths 0 none (some 1) none none emptySymbolData
      (by simp [SymbolData.wellFormed, emptySymbolData])).2.2 (Or.inl rfl)⟩

/-- C5 (amended): when a funding rate `r` is fetched, `update_data` stores
`r * 100` (the percentage) as the new last element of the per-timestamp
`funding_rates` series — the scaling happens at ingestion, not at display —
while the raw unscaled fraction is kept only in `last_funding_rate`. -/
theorem update_data_scales_funding (now sp fp r : ℚ) (oi : Option ℚ) (d : SymbolData)
    (hw : d.wellFormed) :
    ∀ d', update_data now (some sp) (some fp) (some r) oi d = Except.ok d' →
      d'.last_funding_rate = some r ∧ d'.funding_rates.getLast? = some (r * 100) := by
  intro d' hok
  by_cases hsp : sp = 0
  · rw [update_data, premium, if_pos hsp] at hok
    cases hok
  · rw [update_data, premium, if_neg hsp] at hok
    cases hok
    obtain ⟨hfr, hlast⟩ := append_funding_fields now sp fp ((fp - sp) / sp * 100) r oi d
    obtain ⟨l1, l2, l3, l4, l5, l6⟩ := append_lengths now sp fp
      ((fp - sp) / sp * 100) (some r) oi d
    obtain ⟨k, hk, hkbound⟩ := trimOld_eq_dropAll now (appendOI oi (appendFunding (some r)
      (appendPrices now sp fp ((fp - sp) / sp * 100) d)))
    rw [hk]
    constructor
    · rw [dropAll]
      exact hlast
    · rw [dropAll]
      have hklt : k < (appendOI oi (appendFunding (some r)
          (appendPrices now sp fp ((fp - sp) / sp * 100) d))).funding_rates.length := by
        rcases hkbound with h0 | hlt
        · rw [h0, l5]
          exact Nat.succ_pos _
        · rw [l5]
          obtain ⟨w1, w2, w3, w4, w5⟩ := hw
          rw [l1] at hlt
          rw [w4] at *
          omega
      rw [getLast?_drop_of_lt _ k hklt, hfr, List.getLast?_concat]

/-- C5 counterexample: fetching the funding rate `0.01` stores `1` (the
percentage `0.01 * 100`) in the per-timestamp series, not the unscaled
fraction `0.01`. -/
theorem funding_rates_stored_scaled_counterexample :
    (update_data 0 (some 1) (some 1) (some (1 / 100)) (some 0) emptySymbolData).toOption.map
        SymbolData.funding_rates = some [1] ∧
    (1 : ℚ) ≠ 1 / 100 := by
  constructor
  · norm_num [update_data, premium, appendPrices, appendFunding, appendOI, trimOld,
      emptySymbolData, Except.toOption]
  · norm_num

/-- C5 witness: the amended theorem applied to the concrete update that
fetches rate `0.01` into an empty record. -/
theorem update_data_scales_funding_witness :
    (⟨[0], [1], [1], [0], [1], [0], some (1 / 100)⟩ : SymbolData).last_funding_rate
        = some (1 / 100) ∧
    (⟨[0], [1], [1], [0], [1], [0], some (1 / 100)⟩ : SymbolData).funding_rates.getLast?
        = some ((1 / 100) * 100) :=
  update_data_scales_funding 0 1 1 (1 / 100) (some 0) emptySymbolData
    (by simp [SymbolData.wellFormed, emptySymbolData])
    ⟨[0], [1], [1], [0], [1], [0], some (1 / 100)⟩
    (by norm_num [update_data, premium, appendPrices, appendFunding, appendOI, trimOld,
      emptySymbolData])

/-- A kline record as built by `fetch_kline` inside `get_klines_parallel`
(`pages/deepseekmoney.py`): the symbol it was fetched for plus the numeric
fields needed here (`net_inflow = 2 * taker_buy_quote_volume - quote_volume`
is computed by the fetch itself). -/
structure Kline where
  symbol : Symb
  quote_volume : ℚ
  taker_buy_quote_volume : ℚ
  net_inflow : ℚ

/-- `get_klines_parallel` (`pages/deepseekmoney.py`, lines 110-117): one
future per symbol; `as_completed` yields them in some completion order — an
arbitrary permutation of the submitted symbols — and each non-`None` result
is appended, failures are skipped. -/
def get_klines_parallel (completion : List Symb) (fetch : Symb → Option Kline) :
    List Kline :=
  completion.filterMap fetch

/-- A per-symbol open-interest record built by
`BinanceFuturesAnalyzer.get_position_data` (`pages/binanceperpsanalysis.py`). -/
structure PositionRecord where
  symbol : Symb
  current_oi : ℚ
  historical_oi : ℚ
  change : ℚ
  change_percentage : ℚ

/-- `BinanceFuturesAnalyzer.get_position_data` (lines 113-149): on success the
open-interest change is computed (`historical_oi` defaults to 0 when the
history is empty, and the percentage to 0 when `historical_oi` is 0); the
`except` branch returns a zero-filled record carrying only the symbol.
`fetched` is `none` when either request raises, otherwise the current open
interest paired with the optional first history entry. -/
def get_position_data (symbol : Symb) (fetched : Option (ℚ × Option ℚ)) :
    PositionRecord :=
  match fetched with
  | some (current_oi, hist) =>
    let historical_oi := hist.getD 0
    let change := current_oi - historical_oi
    let change_percentage := if historical_oi ≠ 0 then change / historical_oi * 100 else 0
    ⟨symbol, current_oi, historical_oi, change, change_percentage⟩
  | none => ⟨symbol, 0, 0, 0, 0⟩

/-- `BinanceFuturesAnalyzer.analyze_positions` (lines 151-170): iterates the
submitted futures dict in submission order; every `get_position_data` result
is a nonempty dict (truthy), so every symbol contributes exactly one record. -/
def analyze_positions (symbols : List Symb) (posFetch : Symb → Option (ℚ × Option ℚ)) :
    List PositionRecord :=
  symbols.map fun s => get_position_data s (posFetch s)

/-- Turning one symbol's fetch into a failure removes exactly that symbol's
records from a filterMap collection and leaves every other record unchanged. -/
theorem filterMap_override_none (s : Symb) (fetch fetchF : Symb → Option Kline)
    (hwf : ∀ s2 k, fetch s2 = some k → k.symbol = s2)
    (hF : fetchF s = none) (hagree : ∀ s2, s2 ≠ s → fetchF s2 = fetch s2) :
    ∀ l : List Symb,
      l.filterMap fetchF = (l.filterMap fetch).filter fun k => decide (k.symbol ≠ s) := by
  intro l
  induction l with
  | nil => rfl
  | cons t rest ih =>
    rw [List.filterMap_cons, List.filterMap_cons]
    by_cases hts : t = s
    · subst hts
      rw [hF]
      rcases hf : fetch t with _ | k
      · exact ih
      · have hk : k.symbol = t := hwf t k hf
        rw [List.filter_cons, if_neg (by simp [hk])]
        exact ih
    · rw [hagree t hts]
      rcases hf : fetch t with _ | k
      · exact ih
      · have hk : k.symbol = t := hwf t k hf
        rw [List.filter_cons, if_pos (by simp [hk, hts])]
        rw [ih]

/-- C6 (amended): in `get_klines_parallel` the result is, up to completion
order, exactly the records of the succeeding symbols — one per success, none
for a failure — and failing one symbol only removes that symbol's records; in
`analyze_positions`, by contrast, every symbol contributes exactly one record
and a failed symbol is represented by a zero-filled sentinel record, not
excluded. -/
theorem parallel_collection_spec (symbols completion : List Symb)
    (fetch : Symb → Option Kline)
    (hperm : List.Perm completion symbols)
    (hwf : ∀ s2 k, fetch s2 = some k → k.symbol = s2) :
    List.Perm (get_klines_parallel completion fetch) (symbols.filterMap fetch) ∧
    (get_klines_parallel completion fetch).length
      = symbols.countP (fun s => (fetch s).isSome) ∧
    (∀ s, fetch s = none → ∀ k ∈ get_klines_parallel completion fetch, k.symbol ≠ s) ∧
    (∀ s fetchF, fetchF s = none → (∀ s2, s2 ≠ s → fetchF s2 = fetch s2) →
      List.Perm (get_klines_parallel completion fetchF)
        ((symbols.filterMap fetch).filter fun k => decide (k.symbol ≠ s))) ∧
    (∀ posFetch : Symb → Option (ℚ × Option ℚ),
      (analyze_positions symbols posFetch).length = symbols.length ∧
      ∀ s ∈ symbols, posFetch s = none →
        (⟨s, 0, 0, 0, 0⟩ : PositionRecord) ∈ analyze_positions symbols posFetch) := by
  have hp : List.Perm (get_klines_parallel completion fetch) (symbols.filterMap fetch) :=
    List.Perm.filterMap fetch hperm
  refine ⟨hp, ?_, ?_, ?_, ?_⟩
  · rw [hp.length_eq, List.length_filterMap_eq_countP]
  · intro s hs k hk hsym
    obtain ⟨s2, _, hf⟩ := List.mem_filterMap.mp hk
    have : s2 = s := (hwf s2 k hf).symm.trans hsym
    rw [this] at hf
    rw [hs] at hf
    cases hf
  · intro s fetchF hF hagree
    have := filterMap_override_none s fetch fetchF hwf hF hagree completion
    rw [get_klines_parallel, this]
    exact List.Perm.filter _ (List.Perm.filterMap fetch hperm)
  · intro posFetch
    refine ⟨List.length_map symbols _, fun s hs hfail => ?_⟩
    have : get_position_data s (posFetch s) = ⟨s, 0, 0, 0, 0⟩ := by
      rw [hfail, get_position_data]
    exact this ▸ List.mem_map_of_mem (fun s => get_position_data s (posFetch s)) hs

/-- C6 counterexample: a symbol whose fetch fails still contributes an entry
to `analyze_positions` — the zero-filled sentinel record — rather than being
excluded from the result list. -/
theorem analyze_positions_sentinel_counterexample :
    analyze_positions ["BTCUSDT"] (fun _ => none)
      = [⟨"BTCUSDT", 0, 0, 0, 0⟩] ∧
    (analyze_positions ["BTCUSDT"] (fun _ => none)).length = 1 := by
  exact ⟨rfl, rfl⟩

/-- C6 witness: the collection theorem applied to symbols `[X, Y]` completed
in the order `[Y, X]`, where `X` succeeds and `Y` fails. -/
theorem parallel_collection_spec_witness :
    List.Perm (["Y", "X"] : List Symb) ["X", "Y"] ∧
    List.Perm (get_klines_parallel ["Y", "X"]
        (fun s => if s = "X" then some ⟨"X", 1, 1, 1⟩ else none))
      ((["X", "Y"] : List Symb).filterMap
        (fun s => if s = "X" then some ⟨"X", 1, 1, 1⟩ else none)) :=
  ⟨List.Perm.swap "X" "Y" [],
   (parallel_collection_spec ["X", "Y"] ["Y", "X"]
      (fun s => if s = "X" then some ⟨"X", 1, 1, 1⟩ else none)
      (List.Perm.swap "X" "Y" [])
      (by
        intro s k h
        dsimp only at h
        by_cases hs : s = "X"
        · rw [if_pos hs] at h
          cases h
          exact hs.symm
        · rw [if_neg hs] at h
          cases h)).1⟩

/-- The persisted-file contents observable during `run_task`'s save
(`pages/ratemonitor.py`, lines 123-125): `open(self.data_file, "w")`
truncates the file in place, then `json.dump` streams the serialized snapshot
chunk by chunk — there is no temp-file-and-rename. If the process is
interrupted after `k` chunks, the file holds the first `k` chunks of the new
serialization (`k = 0` right after truncation). `old` is the file content
before the save; the list collects every on-disk state. -/
def saveObservableStates (old newContent : List String) : List (List String) :=
  old :: (List.range (newContent.length + 1)).map fun k => newContent.take k

/-- C7 counterexample: interrupting the in-place write of a two-chunk
snapshot after one chunk leaves the file holding `["new1"]` — neither the
complete old snapshot nor the complete new one. -/
theorem save_not_atomic_counterexample :
    (["new1"] : List String) ∈ saveObservableStates ["old"] ["new1", "new2"] ∧
    (["new1"] : List String) ≠ ["old"] ∧
    (["new1"] : List String) ≠ ["new1", "new2"] := by
  refine ⟨?_, by simp, by simp⟩
  rw [saveObservableStates]
  refine List.mem_cons_of_mem _ ?_
  rw [List.mem_map]
  exact ⟨1, by simp, rfl⟩

/-- C7 (amended): the save is an in-place truncate-and-write, not an atomic
replace: an interruption can leave any prefix of the new serialization on
disk (including the empty file right after truncation), and only a completed
save leaves the full new snapshot. -/
theorem save_write_states_spec (old newContent : List String) :
    (∀ st ∈ saveObservableStates old newContent, st = old ∨ st <+: newContent) ∧
    (saveObservableStates old newContent).getLast? = some newContent ∧
    [] ∈ saveObservableStates old newContent := by
  refine ⟨?_, ?_, ?_⟩
  · intro st hst
    rw [saveObservableStates] at hst
    rcases List.mem_cons.mp hst with h | h
    · exact Or.inl h
    · obtain ⟨k, _, hk⟩ := List.mem_map.mp h
      exact Or.inr (hk ▸ List.take_prefix k newContent)
  · rw [saveObservableStates, List.getLast?_eq_getElem?]
    have hlen : (old :: (List.range (newContent.length + 1)).map
        fun k => newContent.take k).length = newContent.length + 2 := by
      simp
    rw [hlen]
    have : newContent.length + 2 - 1 = newContent.length + 1 := rfl
    rw [this, List.getElem?_cons_succ, List.getElem?_map,
      List.getElem?_range (Nat.lt_succ_self _)]
    simp [List.take_length]
  · rw [saveObservableStates]
    refine List.mem_cons_of_mem _ ?_
    rw [List.mem_map]
    exact ⟨0, by simp, rfl⟩

/-- C7 witness: the write-states theorem applied to a concrete old content
and one-chunk new content. -/
theorem save_write_states_spec_witness :
    (saveObservableStates ["o"] ["n"]).getLast? = some ["n"] ∧
    ([] : List String) ∈ saveObservableStates ["o"] ["n"] :=
  ⟨(save_write_states_spec ["o"] ["n"]).2.1, (save_write_states_spec ["o"] ["n"]).2.2⟩

/-- `RateLimiter.acquire` (`pages/binanceperpsanalysis.py`, lines 73-87), as a
function of the call time `t` and the timestamp queue (front = oldest): evict
front entries strictly older than `time_window`; if `max_requests` entries
remain, sleep until the oldest entry plus the window has passed; finally
record the pre-sleep call time `t` at the back. Returns the new queue and the
time at which the call returns. -/
def acquire (max_requests : ℕ) (time_window : ℚ) (t : ℚ) (queue : List ℚ) :
    List ℚ × ℚ :=
  let q1 := queue.dropWhile fun rt => decide (time_window < t - rt)
  if max_requests ≤ q1.length then
    let oldest := q1.head?.getD 0
    let sleep_time := oldest + time_window - t
    let t' := if 0 < sleep_time then t + sleep_time else t
    (q1 ++ [t], t')
  else
    (q1 ++ [t], t)

/-- C8: the limiter does not enforce its quota. With `max_requests = 1` and
`time_window = 1`, acquiring at times 0, 0.5 and 1.0 (each call at or after
the previous return) ends with the third call returning immediately at time
1.0 while the queue holds the timestamps 0, 0.5 and 1.0 — two of them
strictly inside the trailing window (and all three within the closed window),
exceeding `max_requests`. The slip: `acquire` records the pre-sleep call time
and only waits for the single oldest entry, so the queue grows beyond
`max_requests`. -/
theorem rate_limiter_exceeds_quota :
    acquire 1 1 0 [] = ([0], 0) ∧
    acquire 1 1 (1/2) [0] = ([0, 1/2], 1) ∧
    acquire 1 1 1 [0, 1/2] = ([0, 1/2, 1], 1) ∧
    ((acquire 1 1 1 [0, 1/2]).1.countP
        fun rt => decide ((acquire 1 1 1 [0, 1/2]).2 - rt < 1)) = 2 ∧
    ((acquire 1 1 1 [0, 1/2]).1.countP
        fun rt => decide ((acquire 1 1 1 [0, 1/2]).2 - rt ≤ 1)) = 3 := by
  refine ⟨?_, ?_, ?_, ?_, ?_⟩ <;>
    norm_num [acquire, List.dropWhile, List.countP_cons, List.countP_nil]
